import Mathlib

/-!
Verification development for the ConcurrentPlusPlus work-stealing deque.

The definitions below are a shallow embedding of the C++ sources
`src/include/async/internal/buffer.h` (class `CircularBuffer`) and
`src/include/async/deque.h` (class `Deque`).  The near-duplicate files under
`src/include/libconcurrent/internal/queue/` implement the same operations
(the only differences are the loop condition `i < end` instead of `i != end`
in `expandAndCopy`, and non-atomic cells); the embedding below covers both.

Machine integers: `top_`, `bottom_`, `capacity_`, `mask_` and all indices are
C++ `std::int64_t`.  Arithmetic that can leave the int64 range in the
scenarios under study (the capacity doubling `capacity_ << 1`, the
`capacity - 1` inside the constructor assertion, and the bitwise AND with the
mask) is modelled with explicit two's-complement 64-bit semantics (`wrap64`,
`i64and`); C++20 defines signed left shift as multiplication modulo 2^64.
The deque counters `top_`/`bottom_` are modelled as unbounded integers: they
start at 0, change by at most 1 per operation, and the theorems below only
concern runs of fewer than 2^61 operations, where int64 overflow of the
counters is impossible.

Concurrency: `push`/`pop` are owner-only and `steal` is for thieves.  The
sequential semantics used here executes one operation at a time, so every
`compare_exchange_strong` on `top_` sees the value loaded earlier in the same
operation and succeeds; the memory fences order nothing in a single-threaded
run.  Claims about racing interleavings under the C++ memory model are out of
scope of this embedding.
-/

/-- Two's-complement wrap of an unbounded integer into the int64 range
`[-2^63, 2^63)`.  This is the value an int64 holds after an operation whose
mathematical result is `x`. -/
def wrap64 (x : Int) : Int := (x + 2 ^ 63) % 2 ^ 64 - 2 ^ 63

/-- The 64-bit two's-complement bit pattern of an integer, as a natural number
in `[0, 2^64)`. -/
def toTwos64 (x : Int) : Nat := (x % 2 ^ 64).toNat

/-- The int64 value denoted by a 64-bit two's-complement bit pattern. -/
def ofTwos64 (n : Nat) : Int := if n < 2 ^ 63 then (n : Int) else (n : Int) - 2 ^ 64

/-- The C++ bitwise AND of two int64 values (operands are taken modulo 2^64,
the AND is computed on the bit patterns, and the result is read back as an
int64). -/
def i64and (a b : Int) : Int := ofTwos64 (toTwos64 a &&& toTwos64 b)

/-- Embedding of `async::internal::CircularBuffer<T>`: a capacity, the stored
mask `mask_`, and the cell contents, kept as a total map from physical cell
index to value.  The C++ cell array has `capacity_` cells at physical indices
`0 .. capacity_ - 1`; every access goes through `index & mask_`, so `data` is
only ever read or written at such masked indices. -/
structure CircularBuffer (T : Type) where
  capacity : Int
  mask : Int
  data : Int → T

/-- Embedding of the `CircularBuffer` constructor: `capacity_(capacity),
mask_(capacity - 1)`, with cells value-initialized.  The subtraction
`capacity - 1` is an int64 operation, hence the `wrap64` (it differs from the
mathematical value only at `capacity = -2^63`). -/
def CircularBuffer.make (T : Type) [Inhabited T] (capacity : Int) : CircularBuffer T :=
  { capacity := capacity, mask := wrap64 (capacity - 1), data := fun _ => default }

/-- Embedding of the constructor assertion
`assert(capacity && (!(capacity & (capacity - 1))))`: the C++ condition is
true iff `capacity` is nonzero and the int64 AND of `capacity` and
`capacity - 1` is zero.  `i64and` wraps its operands, which matches the int64
evaluation of `capacity - 1`. -/
def capacityAssertOk (capacity : Int) : Bool :=
  decide (capacity ≠ 0) && decide (i64and capacity (capacity - 1) = 0)

/-- The physical cell addressed by logical index `index`: the source computes
`index & mask_`. -/
def CircularBuffer.physIdx {T : Type} (buf : CircularBuffer T) (index : Int) : Int :=
  i64and index buf.mask

/-- Embedding of `CircularBuffer::set`: store `val` into the cell
`buffer_[index & mask_]`. -/
def CircularBuffer.set {T : Type} (buf : CircularBuffer T) (index : Int) (val : T) :
    CircularBuffer T :=
  { buf with data := Function.update buf.data (buf.physIdx index) val }

/-- Embedding of `CircularBuffer::get`: load the cell `buffer_[index & mask_]`. -/
def CircularBuffer.get {T : Type} (buf : CircularBuffer T) (index : Int) : T :=
  buf.data (buf.physIdx index)

/-- The copy loop of `expandAndCopy`:
`for (i = start_inclusive; i != end_exclusive; i++) buf->set(i, get(i));`
unrolled over its iteration count `n`.  For `start ≤ stop` the C++ loop runs
exactly `stop - start` times, which is how it is invoked below. -/
def CircularBuffer.copyFrom {T : Type} (dst src : CircularBuffer T) (start : Int) :
    Nat → CircularBuffer T
  | 0 => dst
  | n + 1 => CircularBuffer.copyFrom (dst.set start (src.get start)) src (start + 1) n

/-- Embedding of `CircularBuffer::expandAndCopy`: allocate a buffer of
capacity `capacity_ << 1` (an int64 shift, i.e. multiplication by 2 modulo
2^64) and copy the logical indices `[start_inclusive, end_exclusive)` into it
via `get`/`set`.  The source buffer is not modified (the embedding is
functional; the C++ method only calls `get` on `this`). -/
def CircularBuffer.expandAndCopy {T : Type} [Inhabited T] (src : CircularBuffer T)
    (start_inclusive end_exclusive : Int) : CircularBuffer T :=
  CircularBuffer.copyFrom (CircularBuffer.make T (wrap64 (2 * src.capacity)))
    src start_inclusive (end_exclusive - start_inclusive).toNat

/-- Embedding of `async::Deque<T>` in the trivial-type path (`no_alloc`),
where the cells hold `T` directly: the two int64 counters and the current
buffer.  The retired-buffers vector only manages memory and never affects
values, so it is not part of the state. -/
structure Deque (T : Type) where
  top : Int
  bottom : Int
  buffer : CircularBuffer T

/-- Embedding of the `Deque` constructor: `top_(0), bottom_(0),
buffer_(new buffer_t{capacity})`. -/
def Deque.fresh (T : Type) [Inhabited T] (capacity : Int) : Deque T :=
  { top := 0, bottom := 0, buffer := CircularBuffer.make T capacity }

/-- The grow condition of `Deque::push`: `bottom - top > buf->capacity() - 1`,
i.e. the deque is full. -/
def Deque.isFull {T : Type} (d : Deque T) : Prop :=
  d.bottom - d.top > d.buffer.capacity - 1

instance {T : Type} (d : Deque T) : Decidable d.isFull := by
  unfold Deque.isFull; infer_instance

/-- Embedding of `Deque::push` (single-threaded run, allocation succeeding):
load `bottom`, `top` and the buffer; if full, replace the buffer by
`expandAndCopy(top, bottom)`; construct the element at logical index `bottom`;
store `bottom + 1` into `bottom_`. -/
def Deque.push {T : Type} [Inhabited T] (d : Deque T) (v : T) : Deque T :=
  let bottom := d.bottom
  let top := d.top
  let buf := d.buffer
  let buf := if bottom - top > buf.capacity - 1 then buf.expandAndCopy top bottom else buf
  { d with buffer := buf.set bottom v, bottom := bottom + 1 }

/-- Embedding of `Deque::pop` (single-threaded run): decrement `bottom_`,
reload `top`; on `top ≤ new_bottom` take the element at `new_bottom` (in the
contested case `top == new_bottom` the CAS on `top_` compares against the
value just loaded and therefore succeeds in a single-threaded run, after
which `bottom_` is restored to `new_bottom + 1`); otherwise the deque was
empty, `bottom_` is restored and nothing is returned.  The returned pair is
(result, state after the call). -/
def Deque.pop {T : Type} (d : Deque T) : Option T × Deque T :=
  let new_bottom := d.bottom - 1
  let buf := d.buffer
  let d1 : Deque T := { d with bottom := new_bottom }
  let top := d1.top
  if top ≤ new_bottom then
    if top = new_bottom then
      (some (buf.get new_bottom), { d1 with top := top + 1, bottom := new_bottom + 1 })
    else
      (some (buf.get new_bottom), d1)
  else
    (none, { d1 with bottom := new_bottom + 1 })

/-- Embedding of `Deque::steal` (single-threaded run): load `top` and
`bottom`; if `top < bottom`, read the element at `top` and advance `top_` by
the CAS (which succeeds in a single-threaded run); otherwise return empty
and leave the state untouched. -/
def Deque.steal {T : Type} (d : Deque T) : Option T × Deque T :=
  let top := d.top
  let bottom := d.bottom
  if top < bottom then
    (some (d.buffer.get top), { d with top := top + 1 })
  else
    (none, d)

/-- Embedding of `Deque::push` instrumented with the outcome of the buffer
allocation performed by `expandAndCopy` (`new CircularBuffer{...}`).  When the
deque is full and the allocation fails, `operator new` throws `bad_alloc`
inside `expandAndCopy`, before `buffer_.store`, before the element is stored
and before `bottom_` is advanced, so the exception propagates out of `push`
with every member of the deque unchanged.  When no grow is needed no
allocation is performed at all (trivial-type path: the element is constructed
in place).  The first component is the outcome, the second the state of the
deque when `push` returns or the exception escapes. -/
def Deque.pushE {T : Type} [Inhabited T] (allocOk : Bool) (v : T) (d : Deque T) :
    Except Unit Unit × Deque T :=
  let bottom := d.bottom
  let top := d.top
  let buf := d.buffer
  if bottom - top > buf.capacity - 1 then
    if allocOk then
      let nbuf := buf.expandAndCopy top bottom
      (Except.ok (), { d with buffer := nbuf.set bottom v, bottom := bottom + 1 })
    else
      (Except.error (), d)
  else
    (Except.ok (), { d with buffer := buf.set bottom v, bottom := bottom + 1 })

/-- A single sequential deque operation. -/
inductive DequeOp (T : Type) where
  | push (v : T)
  | pop
  | steal

/-- Run one operation on the deque (sequential semantics), keeping the state. -/
def Deque.runOp {T : Type} [Inhabited T] (d : Deque T) : DequeOp T → Deque T
  | DequeOp.push v => d.push v
  | DequeOp.pop => (d.pop).2
  | DequeOp.steal => (d.steal).2

/-- Run a sequence of operations on the deque (sequential semantics). -/
def Deque.runOps {T : Type} [Inhabited T] (d : Deque T) (ops : List (DequeOp T)) : Deque T :=
  ops.foldl Deque.runOp d

/-- The specification-level effect of one operation on the sequence of
elements that have been pushed and not yet taken, oldest first: `push`
appends at the young end, `pop` removes the youngest (LIFO), `steal` removes
the oldest (FIFO). -/
def specStep {T : Type} (l : List T) : DequeOp T → List T
  | DequeOp.push v => l ++ [v]
  | DequeOp.pop => l.dropLast
  | DequeOp.steal => l.tail

/-- The specification-level content after a sequence of operations. -/
def specRun {T : Type} (l : List T) (ops : List (DequeOp T)) : List T :=
  ops.foldl specStep l

/-- The abstract content of the deque: the elements at logical indices
`top, top + 1, ..., bottom - 1`, oldest first. -/
def Deque.absList {T : Type} (d : Deque T) : List T :=
  (List.range (d.bottom - d.top).toNat).map (fun (i : Nat) => d.buffer.get (d.top + (i : Int)))

/-- A capacity the constructor assertion accepts and whose doubling stays
below 2^63 is of this shape; the bound 62 admits every power of two an int64
can hold. -/
def GoodCap (c : Int) : Prop := ∃ k : Nat, k ≤ 62 ∧ c = 2 ^ k

/-- The stable-state invariant named by the specification: `top ≤ bottom` and
`bottom - top ≤ buffer.capacity`. -/
def Deque.BasicInv {T : Type} (d : Deque T) : Prop :=
  d.top ≤ d.bottom ∧ d.bottom - d.top ≤ d.buffer.capacity

/-- The full inductive invariant of sequential runs: the basic invariant,
nonnegative `top`, the mask really being `capacity - 1`, and the capacity
being a representable power of two. -/
def Deque.Inv {T : Type} (d : Deque T) : Prop :=
  0 ≤ d.top ∧ d.top ≤ d.bottom ∧ d.bottom - d.top ≤ d.buffer.capacity ∧
    d.buffer.mask = d.buffer.capacity - 1 ∧ GoodCap d.buffer.capacity

/-- A full deque of capacity 2^62 (a capacity the constructor assertion
accepts, with the mask the constructor would store): the state at which the
capacity doubling performed by push leaves the int64 range. -/
def hugeFullDeque : Deque Int :=
  { top := 0
    bottom := 2 ^ 62
    buffer := { capacity := 2 ^ 62
                mask := 2 ^ 62 - 1
                data := fun _ => 0 } }

/-! Arithmetic facts about the int64 model. -/

theorem wrap64_eq_self {x : Int} (h1 : -(2 ^ 63) ≤ x) (h2 : x < 2 ^ 63) : wrap64 x = x := by
  unfold wrap64
  rw [Int.emod_eq_of_lt (by norm_num at h1 h2 ⊢; omega) (by norm_num at h1 h2 ⊢; omega)]
  ring

theorem i64and_two_pow_mask (x : Int) {k : Nat} (hk : k ≤ 63) :
    i64and x ((2 : Int) ^ k - 1) = x % 2 ^ k := by
  have hp : (0 : Int) < 2 ^ k := pow_pos (by norm_num) k
  have hle : (2 : Int) ^ k ≤ 2 ^ 63 := pow_le_pow_right₀ (by norm_num) hk
  have hcast : ((2 ^ k : Nat) : Int) = 2 ^ k := by push_cast; ring
  have h63 : (2 : Int) ^ 63 < 2 ^ 64 := by norm_num
  have hxmod : 0 ≤ x % 2 ^ 64 := Int.emod_nonneg x (by norm_num)
  have hxmod2 : x % 2 ^ 64 < 2 ^ 64 := Int.emod_lt_of_pos x (by norm_num)
  unfold i64and toTwos64
  have hmask : (((2 : Int) ^ k - 1) % 2 ^ 64).toNat = 2 ^ k - 1 := by
    rw [Int.emod_eq_of_lt (by omega) (by omega)]
    omega
  rw [hmask, Nat.and_pow_two_sub_one_eq_mod]
  have hklt : (x % 2 ^ 64).toNat % 2 ^ k < 2 ^ k := Nat.mod_lt _ (by positivity)
  unfold ofTwos64
  rw [if_pos (by omega)]
  have hcast2 : (((x % 2 ^ 64).toNat % 2 ^ k : Nat) : Int) = (x % 2 ^ 64) % 2 ^ k := by
    rw [← Int.ofNat_mod_ofNat, Int.toNat_of_nonneg hxmod, hcast]
  rw [hcast2, Int.emod_emod_of_dvd _ (pow_dvd_pow 2 (by omega : k ≤ 64))]

theorem physIdx_eq_emod {T : Type} {buf : CircularBuffer T} {k : Nat} (hk : k ≤ 63)
    (hm : buf.mask = 2 ^ k - 1) (i : Int) : buf.physIdx i = i % 2 ^ k := by
  unfold CircularBuffer.physIdx
  rw [hm, i64and_two_pow_mask i hk]

theorem emod_window_inj {k : Nat} {i j : Int} (h : i % 2 ^ k = j % 2 ^ k)
    (hw : |i - j| < 2 ^ k) : i = j := by
  have hd : (2 : Int) ^ k ∣ j - i := (show Int.ModEq (2 ^ k) i j from h).dvd
  have h0 : j - i = 0 := Int.eq_zero_of_abs_lt_dvd hd (by rw [abs_sub_comm] at hw; exact hw)
  omega

/-! Unfolding equations for the buffer operations. -/

theorem CircularBuffer.set_mask {T : Type} (buf : CircularBuffer T) (i : Int) (v : T) :
    (buf.set i v).mask = buf.mask := rfl

theorem CircularBuffer.set_capacity {T : Type} (buf : CircularBuffer T) (i : Int) (v : T) :
    (buf.set i v).capacity = buf.capacity := rfl

theorem CircularBuffer.get_eq_data {T : Type} (buf : CircularBuffer T) (i : Int) :
    buf.get i = buf.data (i64and i buf.mask) := rfl

theorem CircularBuffer.set_data {T : Type} (buf : CircularBuffer T) (i : Int) (v : T) :
    (buf.set i v).data = Function.update buf.data (i64and i buf.mask) v := rfl

/-! Facts about the copy loop and about expandAndCopy. -/

theorem copyFrom_capacity {T : Type} (src : CircularBuffer T) (n : Nat) :
    ∀ (dst : CircularBuffer T) (start : Int),
      (dst.copyFrom src start n).capacity = dst.capacity := by
  induction n with
  | zero => intro dst start; rfl
  | succ m ih =>
      intro dst start
      show (CircularBuffer.copyFrom _ src (start + 1) m).capacity = _
      rw [ih]
      rfl

theorem copyFrom_mask {T : Type} (src : CircularBuffer T) (n : Nat) :
    ∀ (dst : CircularBuffer T) (start : Int),
      (dst.copyFrom src start n).mask = dst.mask := by
  induction n with
  | zero => intro dst start; rfl
  | succ m ih =>
      intro dst start
      show (CircularBuffer.copyFrom _ src (start + 1) m).mask = _
      rw [ih]
      rfl

theorem copyFrom_data {T : Type} (src : CircularBuffer T) (n : Nat) :
    ∀ (dst : CircularBuffer T) (start : Int) (p : Int),
      (∀ j : Nat, j < n → i64and (start + j) dst.mask ≠ p) →
      (dst.copyFrom src start n).data p = dst.data p := by
  induction n with
  | zero => intro dst start p _; rfl
  | succ m ih =>
      intro dst start p hp
      show (CircularBuffer.copyFrom _ src (start + 1) m).data p = _
      rw [ih]
      · show Function.update dst.data (dst.physIdx start) (src.get start) p = dst.data p
        apply Function.update_noteq
        have h0 := hp 0 (by omega)
        simp only [Nat.cast_zero, add_zero] at h0
        exact fun hc => h0 (by unfold CircularBuffer.physIdx at hc; rw [hc])
      · intro j hj
        have hmask : (dst.set start (src.get start)).mask = dst.mask := rfl
        rw [hmask]
        have hidx : start + 1 + (j : Int) = start + ((j + 1 : Nat) : Int) := by
          push_cast; ring
        rw [hidx]
        exact hp (j + 1) (by omega)

theorem copyFrom_get {T : Type} (src : CircularBuffer T) {K : Nat} (hK : K ≤ 63) (n : Nat) :
    ∀ (dst : CircularBuffer T) (start : Int), dst.mask = 2 ^ K - 1 → n ≤ 2 ^ K →
      ∀ j : Nat, j < n → (dst.copyFrom src start n).get (start + j) = src.get (start + j) := by
  have hpow : (0 : Int) < 2 ^ K := pow_pos (by norm_num) K
  have hcast : ((2 ^ K : Nat) : Int) = 2 ^ K := by push_cast; ring
  induction n with
  | zero => intro dst start _ _ j hj; omega
  | succ m ih =>
      intro dst start hmask hn j hj
      show (CircularBuffer.copyFrom (dst.set start (src.get start)) src (start + 1) m).get
          (start + j) = _
      rcases Nat.eq_zero_or_pos j with hj0 | hjpos
      · subst hj0
        simp only [Nat.cast_zero, add_zero]
        rw [CircularBuffer.get_eq_data, copyFrom_mask, CircularBuffer.set_mask]
        rw [copyFrom_data]
        · rw [CircularBuffer.set_data, Function.update_same]
        · intro j2 hj2
          rw [CircularBuffer.set_mask, hmask]
          rw [i64and_two_pow_mask _ hK, i64and_two_pow_mask _ hK]
          intro hc
          have heq : start + 1 + (j2 : Int) = start :=
            emod_window_inj hc (by rw [abs_of_nonneg (by omega)]; omega)
          omega
      · obtain ⟨j2, rfl⟩ : ∃ j2, j = j2 + 1 := ⟨j - 1, by omega⟩
        have hidx : start + ((j2 + 1 : Nat) : Int) = start + 1 + (j2 : Int) := by
          push_cast; ring
        rw [hidx]
        exact ih (dst.set start (src.get start)) (start + 1)
          ((CircularBuffer.set_mask dst start (src.get start)).trans hmask)
          (by omega) j2 (by omega)

theorem expandAndCopy_capacity {T : Type} [Inhabited T] (src : CircularBuffer T) (a b : Int) :
    (src.expandAndCopy a b).capacity = wrap64 (2 * src.capacity) := by
  unfold CircularBuffer.expandAndCopy
  rw [copyFrom_capacity]
  rfl

theorem expandAndCopy_mask {T : Type} [Inhabited T] (src : CircularBuffer T) (a b : Int) :
    (src.expandAndCopy a b).mask = wrap64 (wrap64 (2 * src.capacity) - 1) := by
  unfold CircularBuffer.expandAndCopy
  rw [copyFrom_mask]
  rfl

theorem two_pow_cast (k : Nat) : ((2 ^ k : Nat) : Int) = 2 ^ k := by push_cast; ring

theorem wrap64_two_pow {k : Nat} (hk : k ≤ 62) : wrap64 ((2 : Int) ^ k) = 2 ^ k := by
  have h1 : (0 : Int) < 2 ^ k := pow_pos (by norm_num) k
  have h2 : (2 : Int) ^ k ≤ 2 ^ 62 := pow_le_pow_right₀ (by norm_num) hk
  have e62 : (2 : Int) ^ 62 = 4611686018427387904 := by norm_num
  have e63 : (2 : Int) ^ 63 = 9223372036854775808 := by norm_num
  exact wrap64_eq_self (by omega) (by omega)

theorem wrap64_two_pow_sub_one {k : Nat} (hk : k ≤ 63) :
    wrap64 ((2 : Int) ^ k - 1) = 2 ^ k - 1 := by
  have h1 : (0 : Int) < 2 ^ k := pow_pos (by norm_num) k
  have h2 : (2 : Int) ^ k ≤ 2 ^ 63 := pow_le_pow_right₀ (by norm_num) hk
  have e63 : (2 : Int) ^ 63 = 9223372036854775808 := by norm_num
  exact wrap64_eq_self (by omega) (by omega)

theorem expandAndCopy_capacity_good {T : Type} [Inhabited T] {src : CircularBuffer T} {k : Nat}
    (hk : k ≤ 61) (hcap : src.capacity = 2 ^ k) (a b : Int) :
    (src.expandAndCopy a b).capacity = 2 ^ (k + 1) := by
  rw [expandAndCopy_capacity, hcap, show (2 : Int) * 2 ^ k = 2 ^ (k + 1) by ring]
  exact wrap64_two_pow (by omega)

theorem expandAndCopy_mask_good {T : Type} [Inhabited T] {src : CircularBuffer T} {k : Nat}
    (hk : k ≤ 61) (hcap : src.capacity = 2 ^ k) (a b : Int) :
    (src.expandAndCopy a b).mask = 2 ^ (k + 1) - 1 := by
  rw [expandAndCopy_mask, hcap, show (2 : Int) * 2 ^ k = 2 ^ (k + 1) by ring,
    wrap64_two_pow (by omega : k + 1 ≤ 62)]
  exact wrap64_two_pow_sub_one (by omega)

theorem expandAndCopy_get {T : Type} [Inhabited T] {src : CircularBuffer T} {k : Nat}
    (hk : k ≤ 61) (hcap : src.capacity = 2 ^ k) {a b : Int} (hab : a ≤ b)
    (hw : b - a ≤ 2 ^ k) :
    ∀ i : Int, a ≤ i → i < b → (src.expandAndCopy a b).get i = src.get i := by
  intro i h1 h2
  have hcast : ((2 ^ k : Nat) : Int) = 2 ^ k := two_pow_cast k
  have hcast1 : ((2 ^ (k + 1) : Nat) : Int) = 2 ^ (k + 1) := two_pow_cast (k + 1)
  have hpow : (2 : Int) ^ k < 2 ^ (k + 1) := by
    have : (0 : Int) < 2 ^ k := pow_pos (by norm_num) k
    calc (2 : Int) ^ k < 2 ^ k + 2 ^ k := by omega
    _ = 2 ^ (k + 1) := by ring
  have hmask : (CircularBuffer.make T (wrap64 (2 * src.capacity))).mask = 2 ^ (k + 1) - 1 := by
    show wrap64 (wrap64 (2 * src.capacity) - 1) = _
    rw [hcap, show (2 : Int) * 2 ^ k = 2 ^ (k + 1) by ring,
      wrap64_two_pow (by omega : k + 1 ≤ 62)]
    exact wrap64_two_pow_sub_one (by omega)
  obtain ⟨j, hj, hij⟩ : ∃ j : Nat, j < (b - a).toNat ∧ i = a + (j : Int) :=
    ⟨(i - a).toNat, by omega, by omega⟩
  rw [hij]
  exact copyFrom_get src (by omega : k + 1 ≤ 63) _ _ _ hmask (by omega) j hj

theorem get_set {T : Type} {buf : CircularBuffer T} {k : Nat} (hk : k ≤ 63)
    (hm : buf.mask = 2 ^ k - 1) (i j : Int) (v : T) :
    (buf.set i v).get j = if j % 2 ^ k = i % 2 ^ k then v else buf.get j := by
  rw [CircularBuffer.get_eq_data, CircularBuffer.set_data, CircularBuffer.set_mask, hm,
    i64and_two_pow_mask _ hk, i64and_two_pow_mask _ hk]
  by_cases hc : j % 2 ^ k = i % 2 ^ k
  · rw [if_pos hc, hc, Function.update_same]
  · rw [if_neg hc, Function.update_noteq hc, CircularBuffer.get_eq_data, hm,
      i64and_two_pow_mask _ hk]

/-! Unfolding equations for the deque operations. -/

theorem push_def {T : Type} [Inhabited T] (d : Deque T) (v : T) :
    d.push v = { top := d.top
                 bottom := d.bottom + 1
                 buffer := (if d.bottom - d.top > d.buffer.capacity - 1
                   then d.buffer.expandAndCopy d.top d.bottom else d.buffer).set d.bottom v } :=
  rfl

theorem pop_empty_eq {T : Type} (d : Deque T) (h : d.bottom ≤ d.top) : d.pop = (none, d) := by
  unfold Deque.pop
  dsimp only
  rw [if_neg (by omega)]
  rw [show d.bottom - 1 + 1 = d.bottom by omega]

theorem pop_single_eq {T : Type} (d : Deque T) (h : d.top = d.bottom - 1) :
    d.pop = (some (d.buffer.get (d.bottom - 1)),
      { top := d.top + 1
        bottom := d.bottom
        buffer := d.buffer }) := by
  unfold Deque.pop
  dsimp only
  rw [if_pos (by omega), if_pos (by omega)]
  rw [show d.bottom - 1 + 1 = d.bottom by omega]

theorem pop_many_eq {T : Type} (d : Deque T) (h : d.top < d.bottom - 1) :
    d.pop = (some (d.buffer.get (d.bottom - 1)),
      { top := d.top
        bottom := d.bottom - 1
        buffer := d.buffer }) := by
  unfold Deque.pop
  dsimp only
  rw [if_pos (by omega), if_neg (by omega)]

theorem steal_gain_eq {T : Type} (d : Deque T) (h : d.top < d.bottom) :
    d.steal = (some (d.buffer.get d.top),
      { top := d.top + 1
        bottom := d.bottom
        buffer := d.buffer }) := by
  unfold Deque.steal
  dsimp only
  rw [if_pos h]

theorem steal_empty_eq {T : Type} (d : Deque T) (h : d.bottom ≤ d.top) :
    d.steal = (none, d) := by
  unfold Deque.steal
  dsimp only
  rw [if_neg (by omega)]

/-! The window of live logical indices never aliases in the buffer, which
makes the abstract content of the deque evolve like a sequence. -/

theorem set_append_window {T : Type} {B old : CircularBuffer T} {K : Nat} (hK : K ≤ 63)
    (hmask : B.mask = 2 ^ K - 1) {t b : Int} (htb : t ≤ b) (hwin : b - t < 2 ^ K)
    (hget : ∀ i : Int, t ≤ i → i < b → B.get i = old.get i) (v : T) :
    (List.range (b + 1 - t).toNat).map (fun (i : Nat) => (B.set b v).get (t + (i : Int))) =
      (List.range (b - t).toNat).map (fun (i : Nat) => old.get (t + (i : Int))) ++ [v] := by
  have hcast : ((2 ^ K : Nat) : Int) = 2 ^ K := two_pow_cast K
  have hn1 : (b + 1 - t).toNat = (b - t).toNat + 1 := by omega
  rw [hn1, List.range_succ, List.map_append]
  congr 1
  · apply List.map_congr_left
    intro i hi
    rw [List.mem_range] at hi
    have hne : ¬ ((t + (i : Int)) % 2 ^ K = b % 2 ^ K) := by
      intro hc
      have heq : t + (i : Int) = b :=
        emod_window_inj hc (by rw [abs_of_nonpos (by omega)]; omega)
      omega
    rw [get_set hK hmask, if_neg hne]
    exact hget _ (by omega) (by omega)
  · simp only [List.map_cons, List.map_nil]
    rw [show t + (((b - t).toNat : Nat) : Int) = b by omega, get_set hK hmask, if_pos rfl]

theorem push_step {T : Type} [Inhabited T] {d : Deque T} (h : d.Inv) (v : T)
    (hgrow : d.bottom - d.top > d.buffer.capacity - 1 → d.buffer.capacity ≤ 2 ^ 61) :
    (d.push v).Inv ∧ (d.push v).absList = d.absList ++ [v] ∧
      (d.push v).top = d.top ∧ (d.push v).bottom = d.bottom + 1 := by
  obtain ⟨htop, htb, hsize, hmask, k, hk, hcap⟩ := h
  have hcast : ((2 ^ k : Nat) : Int) = 2 ^ k := two_pow_cast k
  have hpos : (0 : Int) < 2 ^ k := pow_pos (by norm_num) k
  rw [push_def]
  by_cases hfull : d.bottom - d.top > d.buffer.capacity - 1
  · rw [if_pos hfull]
    have hcapb : (2 : Int) ^ k = d.bottom - d.top := by omega
    have hk61 : k ≤ 61 := by
      have hcle := hgrow hfull
      by_contra hgt
      have h62 : (2 : Int) ^ 62 ≤ 2 ^ k := pow_le_pow_right₀ (by norm_num) (by omega)
      have e61 : (2 : Int) ^ 61 = 2305843009213693952 := by norm_num
      have e62 : (2 : Int) ^ 62 = 4611686018427387904 := by norm_num
      omega
    have hcast1 : ((2 ^ (k + 1) : Nat) : Int) = 2 ^ (k + 1) := two_pow_cast (k + 1)
    have hBcap : (d.buffer.expandAndCopy d.top d.bottom).capacity = 2 ^ (k + 1) :=
      expandAndCopy_capacity_good (by omega) hcap _ _
    have hBmask : (d.buffer.expandAndCopy d.top d.bottom).mask = 2 ^ (k + 1) - 1 :=
      expandAndCopy_mask_good (by omega) hcap _ _
    have hBget : ∀ i : Int, d.top ≤ i → i < d.bottom →
        (d.buffer.expandAndCopy d.top d.bottom).get i = d.buffer.get i :=
      expandAndCopy_get (by omega) hcap htb (by omega)
    have hpow2 : (2 : Int) ^ k < 2 ^ (k + 1) := by
      calc (2 : Int) ^ k < 2 ^ k + 2 ^ k := by omega
      _ = 2 ^ (k + 1) := by ring
    refine ⟨⟨htop, by dsimp only; omega, ?_, ?_, ⟨k + 1, by omega, ?_⟩⟩, ?_, rfl, rfl⟩
    · dsimp only
      rw [CircularBuffer.set_capacity, hBcap]
      omega
    · dsimp only
      rw [CircularBuffer.set_mask, CircularBuffer.set_capacity, hBcap, hBmask]
    · dsimp only
      rw [CircularBuffer.set_capacity, hBcap]
    · unfold Deque.absList
      dsimp only
      exact set_append_window (by omega) hBmask htb (by omega) hBget v
  · rw [if_neg hfull]
    refine ⟨⟨htop, by dsimp only; omega, ?_, ?_, ⟨k, hk, ?_⟩⟩, ?_, rfl, rfl⟩
    · dsimp only
      rw [CircularBuffer.set_capacity]
      omega
    · dsimp only
      rw [CircularBuffer.set_mask, CircularBuffer.set_capacity]
      exact hmask
    · dsimp only
      rw [CircularBuffer.set_capacity]
      exact hcap
    · unfold Deque.absList
      dsimp only
      exact set_append_window (K := k) (by omega) (by rw [hmask, hcap]) htb (by omega)
        (fun i h1 h2 => rfl) v

theorem pop_step {T : Type} {d : Deque T} (h : d.Inv) :
    (d.pop).2.Inv ∧ (d.pop).2.absList = d.absList.dropLast ∧
      (d.pop).1 = d.absList.getLast? ∧
      (d.pop).2.bottom ≤ d.bottom ∧ d.bottom - 1 ≤ (d.pop).2.bottom ∧ d.top ≤ (d.pop).2.top := by
  obtain ⟨htop, htb, hsize, hmask, k, hk, hcap⟩ := h
  rcases lt_trichotomy d.top (d.bottom - 1) with hlt | heq | hgt
  · rw [pop_many_eq d hlt]
    have hn : (d.bottom - d.top).toNat = (d.bottom - 1 - d.top).toNat + 1 := by omega
    refine ⟨⟨htop, (by omega : d.top ≤ d.bottom - 1),
      (by omega : d.bottom - 1 - d.top ≤ d.buffer.capacity), hmask, k, hk, hcap⟩,
      ?_, ?_, (by omega : d.bottom - 1 ≤ d.bottom), (by omega : d.bottom - 1 ≤ d.bottom - 1),
      (le_refl d.top)⟩
    · show (List.range (d.bottom - 1 - d.top).toNat).map
          (fun (i : Nat) => d.buffer.get (d.top + (i : Int))) =
        ((List.range (d.bottom - d.top).toNat).map
          (fun (i : Nat) => d.buffer.get (d.top + (i : Int)))).dropLast
      rw [hn, List.range_succ, List.map_append, List.map_cons, List.map_nil,
        List.dropLast_concat]
    · show some (d.buffer.get (d.bottom - 1)) =
        ((List.range (d.bottom - d.top).toNat).map
          (fun (i : Nat) => d.buffer.get (d.top + (i : Int)))).getLast?
      rw [hn, List.range_succ, List.map_append, List.map_cons, List.map_nil,
        List.getLast?_concat]
      congr 2
      omega
  · rw [pop_single_eq d heq]
    have hn : (d.bottom - d.top).toNat = 1 := by omega
    refine ⟨⟨(by omega : (0 : Int) ≤ d.top + 1), (by omega : d.top + 1 ≤ d.bottom),
      (by omega : d.bottom - (d.top + 1) ≤ d.buffer.capacity), hmask, k, hk, hcap⟩,
      ?_, ?_, (le_refl d.bottom), (by omega : d.bottom - 1 ≤ d.bottom),
      (by omega : d.top ≤ d.top + 1)⟩
    · show (List.range (d.bottom - (d.top + 1)).toNat).map
          (fun (i : Nat) => d.buffer.get (d.top + 1 + (i : Int))) =
        ((List.range (d.bottom - d.top).toNat).map
          (fun (i : Nat) => d.buffer.get (d.top + (i : Int)))).dropLast
      rw [hn, show (d.bottom - (d.top + 1)).toNat = 0 by omega]
      simp [List.range_succ]
    · show some (d.buffer.get (d.bottom - 1)) =
        ((List.range (d.bottom - d.top).toNat).map
          (fun (i : Nat) => d.buffer.get (d.top + (i : Int)))).getLast?
      rw [hn, List.range_succ, List.range_zero, List.nil_append, List.map_cons, List.map_nil,
        List.getLast?_singleton]
      congr 2
      omega
  · have hbt : d.bottom ≤ d.top := by omega
    rw [pop_empty_eq d hbt]
    have hn : (d.bottom - d.top).toNat = 0 := by omega
    refine ⟨⟨htop, htb, hsize, hmask, k, hk, hcap⟩, ?_, ?_, (le_refl d.bottom),
      (by omega : d.bottom - 1 ≤ d.bottom), (le_refl d.top)⟩
    · show d.absList = d.absList.dropLast
      unfold Deque.absList
      rw [hn]
      simp
    · show (none : Option T) = d.absList.getLast?
      unfold Deque.absList
      rw [hn]
      simp

theorem steal_step {T : Type} {d : Deque T} (h : d.Inv) :
    (d.steal).2.Inv ∧ (d.steal).2.absList = d.absList.tail ∧
      (d.steal).1 = d.absList.head? ∧
      (d.steal).2.bottom = d.bottom ∧ d.top ≤ (d.steal).2.top ∧
      (d.steal).2.top ≤ d.top + 1 := by
  obtain ⟨htop, htb, hsize, hmask, k, hk, hcap⟩ := h
  by_cases hlt : d.top < d.bottom
  · rw [steal_gain_eq d hlt]
    have hn : (d.bottom - d.top).toNat = (d.bottom - (d.top + 1)).toNat + 1 := by omega
    refine ⟨⟨(by omega : (0 : Int) ≤ d.top + 1), (by omega : d.top + 1 ≤ d.bottom),
      (by omega : d.bottom - (d.top + 1) ≤ d.buffer.capacity), hmask, k, hk, hcap⟩,
      ?_, ?_, rfl, (by omega : d.top ≤ d.top + 1), (le_refl (d.top + 1))⟩
    · show (List.range (d.bottom - (d.top + 1)).toNat).map
          (fun (i : Nat) => d.buffer.get (d.top + 1 + (i : Int))) =
        ((List.range (d.bottom - d.top).toNat).map
          (fun (i : Nat) => d.buffer.get (d.top + (i : Int)))).tail
      rw [hn, List.range_succ_eq_map, List.map_cons, List.tail_cons, List.map_map]
      apply List.map_congr_left
      intro i hi
      simp only [Function.comp_apply]
      rw [show d.top + ((Nat.succ i : Nat) : Int) = d.top + 1 + (i : Int) by push_cast; ring]
    · show some (d.buffer.get d.top) =
        ((List.range (d.bottom - d.top).toNat).map
          (fun (i : Nat) => d.buffer.get (d.top + (i : Int)))).head?
      rw [hn, List.range_succ_eq_map, List.map_cons, List.head?_cons]
      norm_num
  · have hbt : d.bottom ≤ d.top := by omega
    rw [steal_empty_eq d hbt]
    have hn : (d.bottom - d.top).toNat = 0 := by omega
    refine ⟨⟨htop, htb, hsize, hmask, k, hk, hcap⟩, ?_, ?_, rfl, (le_refl d.top),
      (by omega : d.top ≤ d.top + 1)⟩
    · show d.absList = d.absList.tail
      unfold Deque.absList
      rw [hn]
      simp
    · show (none : Option T) = d.absList.head?
      unfold Deque.absList
      rw [hn]
      simp

theorem fresh_Inv {T : Type} [Inhabited T] {c : Int} (hc : GoodCap c) : (Deque.fresh T c).Inv := by
  obtain ⟨k, hk, rfl⟩ := hc
  have hpos : (0 : Int) < 2 ^ k := pow_pos (by norm_num) k
  exact ⟨le_refl 0, le_refl 0, (by omega : (0 : Int) - 0 ≤ 2 ^ k),
    wrap64_two_pow_sub_one (by omega), k, hk, rfl⟩

theorem fresh_absList {T : Type} [Inhabited T] (c : Int) : (Deque.fresh T c).absList = [] := rfl

theorem runOps_spec {T : Type} [Inhabited T] (ops : List (DequeOp T)) :
    ∀ d : Deque T, d.Inv → d.bottom + (ops.length : Int) ≤ 2 ^ 61 →
      (d.runOps ops).Inv ∧ (d.runOps ops).absList = specRun d.absList ops ∧
        (d.runOps ops).bottom ≤ d.bottom + (ops.length : Int) := by
  induction ops with
  | nil =>
      intro d h _
      refine ⟨h, rfl, ?_⟩
      show d.bottom ≤ d.bottom + (([] : List (DequeOp T)).length : Int)
      simp
  | cons op rest ih =>
      intro d h hlen
      have hlen1 : d.bottom + ((rest.length : Int) + 1) ≤ 2 ^ 61 := by
        push_cast [List.length_cons] at hlen
        omega
      cases op with
      | push v =>
          obtain ⟨h1, h2, h3, h4⟩ := push_step h v (by
            intro hfull
            have h0 := h.1
            have ha := h.2.1
            have hb2 := h.2.2.1
            omega)
          have hrun : d.runOps (DequeOp.push v :: rest) = (d.push v).runOps rest := rfl
          have hspec : specRun d.absList (DequeOp.push v :: rest) =
              specRun (d.absList ++ [v]) rest := rfl
          rw [hrun, hspec, ← h2]
          obtain ⟨g1, g2, g3⟩ := ih (d.push v) h1 (by rw [h4]; omega)
          refine ⟨g1, g2, ?_⟩
          rw [h4] at g3
          push_cast [List.length_cons]
          omega
      | pop =>
          obtain ⟨h1, h2, h3, h4, h5, h6⟩ := pop_step h
          have hrun : d.runOps (DequeOp.pop :: rest) = ((d.pop).2).runOps rest := rfl
          have hspec : specRun d.absList (DequeOp.pop :: rest) =
              specRun d.absList.dropLast rest := rfl
          rw [hrun, hspec, ← h2]
          obtain ⟨g1, g2, g3⟩ := ih (d.pop).2 h1 (by omega)
          refine ⟨g1, g2, ?_⟩
          push_cast [List.length_cons]
          omega
      | steal =>
          obtain ⟨h1, h2, h3, h4, h5, h6⟩ := steal_step h
          have hrun : d.runOps (DequeOp.steal :: rest) = ((d.steal).2).runOps rest := rfl
          have hspec : specRun d.absList (DequeOp.steal :: rest) =
              specRun d.absList.tail rest := rfl
          rw [hrun, hspec, ← h2]
          obtain ⟨g1, g2, g3⟩ := ih (d.steal).2 h1 (by omega)
          refine ⟨g1, g2, ?_⟩
          push_cast [List.length_cons]
          omega

/-- C1: starting from a fresh deque, a sequential run of push, pop and steal
operations keeps the deque's content equal to the specification list in which
push appends at the young end, pop removes the youngest element and steal
removes the oldest.  Consequently pop returns the most recently pushed element
not yet taken (the last of the list, or empty when none remains) and steal
returns the least recently pushed element not yet taken (the head of the
list, or empty); in particular push x then pop returns x and push x then
steal returns x on the fresh deque.  The capacity is a constructor-valid
power of two and the run is shorter than 2^61 operations (longer runs cannot
occur in an int64-counter deque). -/
theorem C1_sequential_lifo_fifo {T : Type} [Inhabited T] (c : Int) (hc : GoodCap c)
    (ops : List (DequeOp T)) (hlen : (ops.length : Int) ≤ 2 ^ 61) (x : T) :
    ((Deque.fresh T c).runOps ops).absList = specRun [] ops ∧
      ((Deque.fresh T c).runOps ops).pop.1 = (specRun [] ops).getLast? ∧
      ((Deque.fresh T c).runOps ops).steal.1 = (specRun [] ops).head? ∧
      ((Deque.fresh T c).push x).pop.1 = some x ∧
      ((Deque.fresh T c).push x).steal.1 = some x := by
  have hfresh := fresh_Inv (T := T) hc
  have hb : (Deque.fresh T c).bottom + (ops.length : Int) ≤ 2 ^ 61 := by
    show (0 : Int) + (ops.length : Int) ≤ 2 ^ 61
    omega
  obtain ⟨g1, g2, g3⟩ := runOps_spec ops (Deque.fresh T c) hfresh hb
  rw [fresh_absList] at g2
  refine ⟨g2, ?_, ?_, ?_, ?_⟩
  · obtain ⟨_, _, p3, _, _, _⟩ := pop_step g1
    rw [p3, g2]
  · obtain ⟨_, _, s3, _, _, _⟩ := steal_step g1
    rw [s3, g2]
  · obtain ⟨h1, h2, _, _⟩ := push_step hfresh x (by
      intro hfull
      have hfull2 : (0 : Int) - 0 > c - 1 := hfull
      show c ≤ 2 ^ 61
      have e61 : (2 : Int) ^ 61 = 2305843009213693952 := by norm_num
      omega)
    obtain ⟨_, _, p3, _, _, _⟩ := pop_step h1
    rw [p3, h2, fresh_absList]
    simp
  · obtain ⟨h1, h2, _, _⟩ := push_step hfresh x (by
      intro hfull
      have hfull2 : (0 : Int) - 0 > c - 1 := hfull
      show c ≤ 2 ^ 61
      have e61 : (2 : Int) ^ 61 = 2305843009213693952 := by norm_num
      omega)
    obtain ⟨_, _, s3, _, _, _⟩ := steal_step h1
    rw [s3, h2, fresh_absList]
    simp

/-- Witness for C1 at a concrete run: capacity 2 (so the third push grows the
buffer), three pushes and one steal. -/
theorem C1_sequential_lifo_fifo_witness :
    ((Deque.fresh Int 2).runOps
        [DequeOp.push 5, DequeOp.push 6, DequeOp.push 7, DequeOp.steal]).absList =
      specRun [] [DequeOp.push 5, DequeOp.push 6, DequeOp.push 7, DequeOp.steal] ∧
      ((Deque.fresh Int 2).runOps
        [DequeOp.push 5, DequeOp.push 6, DequeOp.push 7, DequeOp.steal]).pop.1 =
      (specRun [] [DequeOp.push 5, DequeOp.push 6, DequeOp.push 7, DequeOp.steal]).getLast? ∧
      ((Deque.fresh Int 2).runOps
        [DequeOp.push 5, DequeOp.push 6, DequeOp.push 7, DequeOp.steal]).steal.1 =
      (specRun [] [DequeOp.push 5, DequeOp.push 6, DequeOp.push 7, DequeOp.steal]).head? ∧
      ((Deque.fresh Int 2).push 9).pop.1 = some 9 ∧
      ((Deque.fresh Int 2).push 9).steal.1 = some 9 :=
  C1_sequential_lifo_fifo 2 ⟨1, by norm_num⟩
    [DequeOp.push 5, DequeOp.push 6, DequeOp.push 7, DequeOp.steal] (by norm_num) 9

/-- C9: on an empty deque (bottom at or below top, and under the invariant the
empty state is exactly top = bottom) pop and steal return empty and leave the
state, in particular top and bottom, exactly as they were; pop's transient
decrement of bottom is restored by the store of new_bottom + 1.  Repeating
either call any number of times returns empty every time with no state
change. -/
theorem C9_empty_pop_steal_noop {T : Type} (d : Deque T) (h : d.bottom ≤ d.top) (n : Nat) :
    d.pop = (none, d) ∧ d.steal = (none, d) ∧
      (fun s : Deque T => (s.pop).2)^[n] d = d ∧
      (fun s : Deque T => (s.steal).2)^[n] d = d := by
  refine ⟨pop_empty_eq d h, steal_empty_eq d h, ?_, ?_⟩
  · induction n with
    | zero => rfl
    | succ m ih =>
        rw [Function.iterate_succ_apply]
        have hd : (d.pop).2 = d := by rw [pop_empty_eq d h]
        rw [hd, ih]
  · induction n with
    | zero => rfl
    | succ m ih =>
        rw [Function.iterate_succ_apply]
        have hd : (d.steal).2 = d := by rw [steal_empty_eq d h]
        rw [hd, ih]

/-- Witness for C9 on a fresh deque of capacity 4, iterated 3 times. -/
theorem C9_empty_pop_steal_noop_witness :
    (Deque.fresh Int 4).pop = (none, Deque.fresh Int 4) ∧
      (Deque.fresh Int 4).steal = (none, Deque.fresh Int 4) ∧
      (fun s : Deque Int => (s.pop).2)^[3] (Deque.fresh Int 4) = Deque.fresh Int 4 ∧
      (fun s : Deque Int => (s.steal).2)^[3] (Deque.fresh Int 4) = Deque.fresh Int 4 :=
  C9_empty_pop_steal_noop (Deque.fresh Int 4) (by show (0 : Int) ≤ 0; norm_num) 3

/-- C3 counterexample: the predicate top ≤ bottom ∧ bottom − top ≤ capacity
holds on the full deque of capacity 2^62 — a capacity the constructor
assertion accepts — but a completed push on that state breaks it: the doubled
capacity 2^63 wraps to −2^63 (C++20 signed shift is modular), so afterwards
bottom − top = 2^62 + 1 exceeds the now negative capacity. -/
theorem C3_counterexample :
    hugeFullDeque.BasicInv ∧ capacityAssertOk hugeFullDeque.buffer.capacity = true ∧
      hugeFullDeque.buffer.mask = hugeFullDeque.buffer.capacity - 1 ∧
      ¬ (hugeFullDeque.push 0).BasicInv := by
  refine ⟨⟨by decide, by decide⟩, by decide, by decide, ?_⟩
  intro hbad
  have h2 := hbad.2
  rw [push_def] at h2
  dsimp only [hugeFullDeque] at h2
  rw [if_pos (by decide), CircularBuffer.set_capacity, expandAndCopy_capacity] at h2
  have hw : wrap64 (2 * ((2 : Int) ^ 62)) = -(2 ^ 63) := by decide
  dsimp only at h2
  rw [hw] at h2
  norm_num at h2

/-- C3 amended: the predicate top ≤ bottom ∧ bottom − top ≤ capacity holds on
a fresh deque with a constructor-valid power-of-two capacity, and (together
with the power-of-two capacity form) is preserved by every completed pop and
steal unconditionally and by every completed push whose grow starts from a
capacity of at most 2^61 — the doubling wraps at capacity 2^62, the only
power-of-two int64 capacity excluded (see the counterexample).  Moreover no
push or steal ever decreases top or bottom: push keeps top and increments
bottom by one, steal keeps bottom and advances top by at most one, and only
pop transiently decrements bottom, returning the state unchanged whenever it
takes nothing. -/
theorem C3_invariant_and_monotonicity {T : Type} [Inhabited T] (c : Int) (hc : GoodCap c)
    (d : Deque T) (v : T) (hInv : d.Inv)
    (hgrow : d.bottom - d.top > d.buffer.capacity - 1 → d.buffer.capacity ≤ 2 ^ 61) :
    (Deque.fresh T c).BasicInv ∧
      (d.push v).Inv ∧ ((d.pop).2).Inv ∧ ((d.steal).2).Inv ∧
      (d.push v).top = d.top ∧ (d.push v).bottom = d.bottom + 1 ∧
      (d.steal).2.bottom = d.bottom ∧ d.top ≤ (d.steal).2.top ∧
      (d.steal).2.top ≤ d.top + 1 ∧
      d.bottom - 1 ≤ (d.pop).2.bottom ∧ (d.pop).2.bottom ≤ d.bottom ∧
      d.top ≤ (d.pop).2.top ∧
      ((d.pop).1 = none → (d.pop).2 = d) := by
  obtain ⟨p1, _, _, p4, p5, p6⟩ := pop_step hInv
  obtain ⟨s1, _, _, s4, s5, s6⟩ := steal_step hInv
  obtain ⟨u1, _, u3, u4⟩ := push_step hInv v hgrow
  have hfi := fresh_Inv (T := T) hc
  have hnone : (d.pop).1 = none → (d.pop).2 = d := by
    intro hn
    by_cases hbt : d.bottom ≤ d.top
    · rw [pop_empty_eq d hbt]
    · rcases lt_trichotomy d.top (d.bottom - 1) with hlt | heq | hgt
      · rw [pop_many_eq d hlt] at hn
        exact absurd hn (by simp)
      · rw [pop_single_eq d heq] at hn
        exact absurd hn (by simp)
      · omega
  exact ⟨⟨hfi.2.1, hfi.2.2.1⟩, u1, p1, s1, u3, u4, s4, s5, s6, p5, p4, p6, hnone⟩

/-- Witness for C3 on a one-element deque of capacity 2. -/
theorem C3_invariant_and_monotonicity_witness :
    (Deque.fresh Int 2).BasicInv ∧
      (((Deque.fresh Int 2).push 5).push 7).Inv ∧
      ((((Deque.fresh Int 2).push 5).pop).2).Inv ∧
      ((((Deque.fresh Int 2).push 5).steal).2).Inv ∧
      (((Deque.fresh Int 2).push 5).push 7).top = ((Deque.fresh Int 2).push 5).top ∧
      (((Deque.fresh Int 2).push 5).push 7).bottom = ((Deque.fresh Int 2).push 5).bottom + 1 ∧
      (((Deque.fresh Int 2).push 5).steal).2.bottom = ((Deque.fresh Int 2).push 5).bottom ∧
      ((Deque.fresh Int 2).push 5).top ≤ (((Deque.fresh Int 2).push 5).steal).2.top ∧
      (((Deque.fresh Int 2).push 5).steal).2.top ≤ ((Deque.fresh Int 2).push 5).top + 1 ∧
      ((Deque.fresh Int 2).push 5).bottom - 1 ≤ (((Deque.fresh Int 2).push 5).pop).2.bottom ∧
      (((Deque.fresh Int 2).push 5).pop).2.bottom ≤ ((Deque.fresh Int 2).push 5).bottom ∧
      ((Deque.fresh Int 2).push 5).top ≤ (((Deque.fresh Int 2).push 5).pop).2.top ∧
      ((((Deque.fresh Int 2).push 5).pop).1 = none → (((Deque.fresh Int 2).push 5).pop).2 =
        (Deque.fresh Int 2).push 5) :=
  C3_invariant_and_monotonicity 2 ⟨1, by norm_num⟩ ((Deque.fresh Int 2).push 5) 7
    ⟨by decide, by decide, by decide, by decide, 1, by decide, by decide⟩
    (by decide)

/-- C4: for a circular array whose capacity is a power of two at most 2^61
(so that the doubling stays in int64 — the overflow case is settled under
C5) and logical indices lo ≤ hi with hi − lo ≤ capacity, expandAndCopy
returns an array whose capacity is exactly twice the source capacity and in
which every logical index in [lo, hi) reads the same value as in the source.
The source array is not modified: the embedding is functional and the C++
method only calls get on the source object. -/
theorem C4_expandAndCopy_doubles_and_copies {T : Type} [Inhabited T]
    (src : CircularBuffer T) {k : Nat} (hk : k ≤ 61) (hcap : src.capacity = 2 ^ k)
    (lo hi : Int) (h1 : lo ≤ hi) (h2 : hi - lo ≤ src.capacity)
    (i : Int) (hi1 : lo ≤ i) (hi2 : i < hi) :
    (src.expandAndCopy lo hi).capacity = 2 * src.capacity ∧
      (src.expandAndCopy lo hi).get i = src.get i := by
  constructor
  · rw [expandAndCopy_capacity_good hk hcap, hcap]
    ring
  · rw [hcap] at h2
    exact expandAndCopy_get hk hcap h1 h2 i hi1 hi2

/-- Witness for C4 on a buffer of capacity 4 holding one written value. -/
theorem C4_expandAndCopy_doubles_and_copies_witness :
    (((CircularBuffer.make Int 4).set 1 9).expandAndCopy 0 3).capacity =
        2 * ((CircularBuffer.make Int 4).set 1 9).capacity ∧
      (((CircularBuffer.make Int 4).set 1 9).expandAndCopy 0 3).get 1 =
        ((CircularBuffer.make Int 4).set 1 9).get 1 :=
  C4_expandAndCopy_doubles_and_copies ((CircularBuffer.make Int 4).set 1 9)
    (k := 2) (by norm_num) (by decide) 0 3 (by norm_num) (by decide) 1
    (by norm_num) (by norm_num)

/-- C5: grow performs no overflow check.  On the capacity-2^62 buffer — the
only power-of-two int64 capacity whose doubling is unrepresentable — the
shifted capacity `capacity_ << 1` wraps to −2^63, the new array is
constructed with that negative capacity, and the constructor's power-of-two
assertion even accepts −2^63 (the int64 value −2^63 − 1 wraps to 2^63 − 1
and the AND of the two is zero), so no abort happens anywhere: grow returns
an array with a wrapped, negative capacity. -/
theorem C5_grow_overflow_returns_wrapped_capacity :
    (hugeFullDeque.buffer.expandAndCopy 0 0).capacity = -(2 ^ 63) ∧
      (hugeFullDeque.buffer.expandAndCopy 0 0).capacity < 0 ∧
      capacityAssertOk ((hugeFullDeque.buffer.expandAndCopy 0 0).capacity) = true := by
  have h : (hugeFullDeque.buffer.expandAndCopy 0 0).capacity = -(2 ^ 63) := by
    rw [expandAndCopy_capacity]
    decide
  exact ⟨h, by rw [h]; norm_num, by rw [h]; decide⟩

/-- C6: when the deque is full, push grows; if the buffer allocation inside
expandAndCopy fails, the exception propagates out of push before any member
of the deque is written, so the deque is unmodified — the state accompanying
the error is exactly the input state: same top, same bottom, same buffer,
same stored elements — and the deque remains usable at its current capacity:
the same push succeeds once allocation succeeds. -/
theorem C6_alloc_failure_leaves_deque_unchanged {T : Type} [Inhabited T] (d : Deque T)
    (v : T) (h : d.bottom - d.top > d.buffer.capacity - 1) :
    Deque.pushE false v d = (Except.error (), d) ∧
      (Deque.pushE true v ((Deque.pushE false v d).2)).1 = Except.ok () := by
  have h1 : Deque.pushE false v d = (Except.error (), d) := by
    unfold Deque.pushE
    dsimp only
    rw [if_pos h]
    rfl
  refine ⟨h1, ?_⟩
  rw [h1]
  unfold Deque.pushE
  dsimp only
  rw [if_pos h]
  rfl

/-- Witness for C6 on a full one-slot deque. -/
theorem C6_alloc_failure_leaves_deque_unchanged_witness :
    Deque.pushE false 7 ((Deque.fresh Int 1).push 5) =
        (Except.error (), (Deque.fresh Int 1).push 5) ∧
      (Deque.pushE true 7 ((Deque.pushE false 7 ((Deque.fresh Int 1).push 5)).2)).1 =
        Except.ok () :=
  C6_alloc_failure_leaves_deque_unchanged ((Deque.fresh Int 1).push 5) 7 (by decide)

/-- C7 counterexample: push is not allocation-free and error-free on every
deque state even in the trivial-type path.  On a full deque, push calls
expandAndCopy, which allocates a doubled buffer with operator new in both
element-representation paths; when that allocation fails, the push reports
the failure instead of completing. -/
theorem C7_counterexample :
    (Deque.pushE false 7 ((Deque.fresh Int 1).push 5)).1 = Except.error () := by
  rfl

/-- C7 amended: in the trivial-type path the cells hold T directly, so push
performs no per-element allocation and a push that does not trigger growth
performs no allocation at all and cannot fail — it completes identically
whether or not the allocator would succeed — while a push on a full deque
allocates a doubled buffer (in the trivial path too) and can fail with
out-of-memory; pop and steal allocate nothing in the trivial path.  In the
source only pop and steal carry a noexcept specification; push does not. -/
theorem C7_no_grow_no_alloc {T : Type} [Inhabited T] (d : Deque T) (v : T)
    (h : ¬ (d.bottom - d.top > d.buffer.capacity - 1)) :
    Deque.pushE false v d = (Except.ok (), d.push v) ∧
      Deque.pushE true v d = (Except.ok (), d.push v) := by
  constructor <;>
  · unfold Deque.pushE
    dsimp only
    rw [if_neg h, push_def, if_neg h]

/-- Witness for C7 on a fresh deque of capacity 4. -/
theorem C7_no_grow_no_alloc_witness :
    Deque.pushE false 7 (Deque.fresh Int 4) =
        (Except.ok (), (Deque.fresh Int 4).push 7) ∧
      Deque.pushE true 7 (Deque.fresh Int 4) =
        (Except.ok (), (Deque.fresh Int 4).push 7) :=
  C7_no_grow_no_alloc (Deque.fresh Int 4) 7 (by decide)

/-! Bit-level facts used for the capacity assertion. -/

theorem testBit63_of_neg {a : Int} (h1 : -(2 ^ 63) ≤ a) (h2 : a < 0) :
    Nat.testBit (toTwos64 a) 63 = true := by
  have e63 : (2 : Int) ^ 63 = 9223372036854775808 := by norm_num
  have e64 : (2 : Int) ^ 64 = 18446744073709551616 := by norm_num
  have n63 : (2 : Nat) ^ 63 = 9223372036854775808 := by norm_num
  have hmod : a % 2 ^ 64 = a + 2 ^ 64 := by omega
  unfold toTwos64
  rw [hmod, Nat.testBit_to_div_mod]
  have hdiv : (a + 2 ^ 64).toNat / 2 ^ 63 = 1 := by omega
  rw [hdiv]
  decide

theorem toTwos64_lt {a : Int} : toTwos64 a < 2 ^ 64 := by
  have e64 : (2 : Int) ^ 64 = 18446744073709551616 := by norm_num
  have n64 : (2 : Nat) ^ 64 = 18446744073709551616 := by norm_num
  unfold toTwos64
  have h1 : 0 ≤ a % 2 ^ 64 := Int.emod_nonneg a (by norm_num)
  have h2 : a % 2 ^ 64 < 2 ^ 64 := Int.emod_lt_of_pos a (by norm_num)
  omega

theorem i64and_neg_neg_ne_zero {a b : Int} (ha1 : -(2 ^ 63) ≤ a) (ha2 : a < 0)
    (hb1 : -(2 ^ 63) ≤ b) (hb2 : b < 0) : i64and a b ≠ 0 := by
  have hbit : Nat.testBit (toTwos64 a &&& toTwos64 b) 63 = true := by
    rw [Nat.testBit_land, testBit63_of_neg ha1 ha2, testBit63_of_neg hb1 hb2]
    rfl
  have hge : 2 ^ 63 ≤ toTwos64 a &&& toTwos64 b := by
    by_contra hlt
    push_neg at hlt
    rw [Nat.testBit_lt_two_pow hlt] at hbit
    exact Bool.false_ne_true hbit
  have hlt64 : toTwos64 a &&& toTwos64 b < 2 ^ 64 :=
    Nat.and_lt_two_pow _ (toTwos64_lt (a := b))
  have n63 : (2 : Nat) ^ 63 = 9223372036854775808 := by norm_num
  have n64 : (2 : Nat) ^ 64 = 18446744073709551616 := by norm_num
  have e63 : (2 : Int) ^ 63 = 9223372036854775808 := by norm_num
  have e64 : (2 : Int) ^ 64 = 18446744073709551616 := by norm_num
  unfold i64and ofTwos64
  rw [if_neg (by omega)]
  intro hzero
  omega

/-- C8: the constructor assertion
`assert(capacity && (!(capacity & (capacity - 1))))` rejects every invalid
int64 capacity except exactly one: for every k other than −2^63 with k ≤ 0
or with k & (k − 1) ≠ 0, the assertion evaluates false and construction
aborts; but at k = −2^63 — which the claim also requires to fail — the int64
subtraction k − 1 wraps to 2^63 − 1, the AND of the two patterns is 0, and
the assertion erroneously accepts the capacity, so construction proceeds. -/
theorem C8_capacity_assertion (q : Int) (hlo : -(2 ^ 63) < q) (hhi : q < 2 ^ 63)
    (hbad : q ≤ 0 ∨ i64and q (q - 1) ≠ 0) :
    capacityAssertOk q = false ∧ capacityAssertOk (-(2 ^ 63)) = true := by
  have e63 : (2 : Int) ^ 63 = 9223372036854775808 := by norm_num
  refine ⟨?_, by decide⟩
  unfold capacityAssertOk
  rcases hbad with hq | hq
  · rcases eq_or_lt_of_le hq with heq0 | hneg
    · rw [heq0]
      decide
    · have hne : i64and q (q - 1) ≠ 0 :=
        i64and_neg_neg_ne_zero (by omega) hneg (by omega) (by omega)
      rw [decide_eq_false hne, Bool.and_false]
  · rw [decide_eq_false hq, Bool.and_false]

/-- Witness for C8 at the invalid capacity 12. -/
theorem C8_capacity_assertion_witness :
    capacityAssertOk 12 = false ∧ capacityAssertOk (-(2 ^ 63)) = true :=
  C8_capacity_assertion 12 (by norm_num) (by norm_num) (Or.inr (by decide))

/-- C10: with a power-of-two capacity c and the constructor mask c − 1, set
stores through index & mask, so after set(i, v) a get(j) returns v for every
index j congruent to i modulo c (the indices alias through the mask) and the
previous value for every j not congruent to i; set writes exactly the one
physical cell i & mask and leaves every other physical cell untouched. -/
theorem C10_set_get_aliasing {T : Type} {buf : CircularBuffer T} {k : Nat} (hk : k ≤ 62)
    (hcap : buf.capacity = 2 ^ k) (hmask : buf.mask = buf.capacity - 1)
    (i j : Int) (v : T) (p : Int) (hp : p ≠ buf.physIdx i) :
    (j % buf.capacity = i % buf.capacity → (buf.set i v).get j = v) ∧
      (j % buf.capacity ≠ i % buf.capacity → (buf.set i v).get j = buf.get j) ∧
      (buf.set i v).data (buf.physIdx i) = v ∧
      (buf.set i v).data p = buf.data p := by
  have hm2 : buf.mask = 2 ^ k - 1 := by rw [hmask, hcap]
  have hget := get_set (by omega : k ≤ 63) hm2 i j v
  rw [hcap]
  refine ⟨?_, ?_, ?_, ?_⟩
  · intro hc
    rw [hget, if_pos hc]
  · intro hc
    rw [hget, if_neg hc]
  · rw [CircularBuffer.set_data]
    show Function.update buf.data (buf.physIdx i) v (buf.physIdx i) = v
    exact Function.update_same _ _ _
  · rw [CircularBuffer.set_data]
    show Function.update buf.data (buf.physIdx i) v p = buf.data p
    exact Function.update_noteq hp _ _

/-- Witness for C10 on a buffer of capacity 4 with aliasing indices 1 and 5. -/
theorem C10_set_get_aliasing_witness :
    (5 % (CircularBuffer.make Int 4).capacity = 1 % (CircularBuffer.make Int 4).capacity →
      ((CircularBuffer.make Int 4).set 1 9).get 5 = 9) ∧
      (5 % (CircularBuffer.make Int 4).capacity ≠ 1 % (CircularBuffer.make Int 4).capacity →
        ((CircularBuffer.make Int 4).set 1 9).get 5 = (CircularBuffer.make Int 4).get 5) ∧
      ((CircularBuffer.make Int 4).set 1 9).data ((CircularBuffer.make Int 4).physIdx 1) = 9 ∧
      ((CircularBuffer.make Int 4).set 1 9).data 0 = (CircularBuffer.make Int 4).data 0 :=
  C10_set_get_aliasing (k := 2) (by norm_num) (by decide) (by decide) 1 5 9 0 (by decide)
